import Mathlib

/-!
Shallow embedding of the ingestion-and-aggregation engine of
`src/build_daily_volumes.py` and `src/polymarket_closed_markets_daily.py`.

Machine conventions: epoch timestamps and sleep durations are naturals
(seconds), monetary values and prices are rationals (the Python floats are
only stored, summed and compared against zero in the verified claims),
dates are naturals counting UTC days since the epoch (the Python
`YYYY-MM-DD` strings compare lexicographically exactly as these numbers
compare), and upstream transports are oracles mapping request parameters
to the response the network would deliver.
-/

namespace Polymarket

/-- Outcome of one low-level HTTP attempt as seen by the retry loops:
either the HTTP library raised an exception carrying a message, or a
response arrived with a status code, a body text, and the result of
JSON-decoding that body (`Except.error` holds the text of the exception
`resp.json()` would raise). -/
inductive Attempt (J : Type) where
  | exc (msg : String)
  | resp (status : Nat) (text : String) (parsed : Except String J)

/-- Statuses both retry loops treat as transient: 429, 500, 502, 503, 504. -/
def retryableStatus (s : Nat) : Bool :=
  s == 429 || s == 500 || s == 502 || s == 503 || s == 504

/-- The `last_err` string `request_json` builds for an HTTP error status
(`f"HTTP {resp.status_code}: {resp.text[:300]}"`). -/
def httpErrMsg (status : Nat) (text : String) : String :=
  "HTTP " ++ toString status ++ ": " ++ text.take 300

/-- What a call of a retrying transport produced: the returned value (or
raised error), the number of HTTP attempts it issued, and the total time
it slept in back-off, in seconds. -/
structure ReqResult (J : Type) where
  result : Except String (Option J)
  calls : Nat
  slept : Nat
deriving Repr

/-- The attempt loop of `request_json` (build_daily_volumes.py, lines
27-53).  State: 1-based attempt number, remaining attempts, current
back-off, `last_err`, attempts issued so far, seconds slept so far.
A success status with empty body returns `none`; with a decodable body
returns the value; every failure (exception, decode failure on a success
status, retryable or non-retryable error status - the `raise` for the
latter happens inside the `try` and is caught by the blanket `except`)
records `last_err`, sleeps the back-off, doubles it capped at 16, and
moves to the next attempt. -/
def requestJsonLoop {J : Type} (oracle : Nat → Attempt J) :
    Nat → Nat → Nat → Option String → Nat → Nat → ReqResult J
  | _, 0, _, lastErr, calls, slept =>
    ⟨.error ("failed after retries: " ++ lastErr.getD "None"), calls, slept⟩
  | attempt, r + 1, backoff, _lastErr, calls, slept =>
    match oracle attempt with
    | .exc msg =>
        requestJsonLoop oracle (attempt + 1) r (min (backoff * 2) 16)
          (some msg) (calls + 1) (slept + backoff)
    | .resp status text parsed =>
        if status < 400 then
          if text.isEmpty then ⟨.ok none, calls + 1, slept⟩
          else
            match parsed with
            | .ok j => ⟨.ok (some j), calls + 1, slept⟩
            | .error pmsg =>
                requestJsonLoop oracle (attempt + 1) r (min (backoff * 2) 16)
                  (some pmsg) (calls + 1) (slept + backoff)
        else
          if retryableStatus status then
            requestJsonLoop oracle (attempt + 1) r (min (backoff * 2) 16)
              (some (httpErrMsg status text)) (calls + 1) (slept + backoff)
          else
            requestJsonLoop oracle (attempt + 1) r (min (backoff * 2) 16)
              (some (httpErrMsg status text)) (calls + 1) (slept + backoff)

/-- `request_json(method, url, ..., max_attempts)`: run the loop from
attempt 1 with back-off 1 and no recorded error. -/
def requestJson {J : Type} (oracle : Nat → Attempt J) (maxAttempts : Nat) : ReqResult J :=
  requestJsonLoop oracle 1 maxAttempts 1 none 0 0

/-- The attempt loop of `_request_with_retry`
(polymarket_closed_markets_daily.py, lines 108-137): fixed six attempts,
no `try` around the request, so lower-level exceptions and JSON decode
failures on a success status propagate at once; a non-retryable error
status raises at once; only retryable statuses sleep and loop.  The
exhaustion error carries no last-error text. -/
def requestWithRetryLoop {J : Type} (oracle : Nat → Attempt J) :
    Nat → Nat → Nat → Nat → Nat → ReqResult J
  | _, 0, _, calls, slept => ⟨.error "failed after retries", calls, slept⟩
  | attempt, r + 1, backoff, calls, slept =>
    match oracle attempt with
    | .exc msg => ⟨.error msg, calls + 1, slept⟩
    | .resp status text parsed =>
        if status < 400 then
          if text.isEmpty then ⟨.ok none, calls + 1, slept⟩
          else
            match parsed with
            | .ok j => ⟨.ok (some j), calls + 1, slept⟩
            | .error pmsg => ⟨.error pmsg, calls + 1, slept⟩
        else
          if retryableStatus status then
            requestWithRetryLoop oracle (attempt + 1) r (min (backoff * 2) 16)
              (calls + 1) (slept + backoff)
          else
            ⟨.error ("failed: " ++ toString status ++ " " ++ text.take 300),
              calls + 1, slept⟩

/-- `_request_with_retry`: six attempts starting with back-off 1. -/
def requestWithRetry {J : Type} (oracle : Nat → Attempt J) : ReqResult J :=
  requestWithRetryLoop oracle 0 6 1 0 0

/-- The sleep total actually accumulated by the back-off schedule: one
sleep of the current back-off per failed attempt, back-off doubling capped
at 16 after each sleep. -/
def backoffSum (b : Nat) : Nat → Nat
  | 0 => 0
  | r + 1 => b + backoffSum (min (b * 2) 16) r

/-- The sleep-total formula asserted by the specification for a transport
that fails all of `m` attempts: sum of min(2^(k-1), 16) for k in 1..m-1. -/
def claimSleep (m : Nat) : Nat :=
  ∑ k in Finset.Icc 1 (m - 1), min (2 ^ (k - 1)) 16

/-- The sleep total the code accumulates when all `m` attempts fail: sum
of min(2^(k-1), 16) for k in 1..m - the final failed attempt also sleeps
before the loop exhausts. -/
def codeSleep (m : Nat) : Nat :=
  ∑ k in Finset.Icc 1 m, min (2 ^ (k - 1)) 16

/-- A raw trade record as `build_daily_volumes` reads it: the three fields
the aggregation touches.  `none` models a field that is missing or fails
the `int(float(.))` / `float(.)` coercion. -/
structure Trade where
  timestamp : Option Nat
  price : Option ℚ
  size : Option ℚ
deriving DecidableEq, Repr

/-- The fixed page size of `fetch_all_trades`. -/
def pageLimit : Nat := 500

/-- Does `s` start with `pat`, on character lists. -/
def charsStartWith : List Char → List Char → Bool
  | [], _ => true
  | _ :: _, [] => false
  | a :: as, b :: bs => a == b && charsStartWith as bs

/-- Does `s` contain `pat` as a contiguous run, on character lists. -/
def charsContain (pat : List Char) : List Char → Bool
  | [] => charsStartWith pat []
  | b :: bs => charsStartWith pat (b :: bs) || charsContain pat bs

/-- Substring test, `pat in s` of Python. -/
def containsSubstring (pat s : String) : Bool :=
  charsContain pat.data s.data

/-- The upstream message that marks the documented offset cap. -/
def maxOffsetMsg : String := "max historical activity offset of 3000 exceeded"

/-- What one run of `fetch_all_trades` produced: the accumulated records,
the truncation flag, the offsets of the page requests it issued in order,
and the pages appended to the jsonl cache log in order. -/
structure FetchResult where
  trades : List Trade
  truncated : Nat
  reqs : List Nat
  log : List (List Trade)
deriving DecidableEq, Repr

/-- The pagination loop of `fetch_all_trades` (build_daily_volumes.py,
lines 137-171), fuel-indexed.  The oracle maps an offset to what
`request_json` returns for that page: a raised error message, or parsed
JSON (`none` models a non-list body, coerced to `[]`).  Before issuing a
request the loop stops with truncated=1 if the offset exceeds 3000; an
error whose text contains the upstream cap message stops with truncated=1;
any other error propagates; a non-empty page is appended to the log; a
page shorter than the limit stops with truncated=0; otherwise the offset
advances by the limit. -/
def fetchTradesLoop (oracle : Nat → Except String (Option (List Trade))) :
    Nat → List Trade → Nat → List Nat → List (List Trade) →
    Except String FetchResult
  | 0, _, _, _, _ => .error "out of fuel"
  | fuel + 1, trades, offset, reqs, log =>
    if 3000 < offset then .ok ⟨trades, 1, reqs, log⟩
    else
      match oracle offset with
      | .error msg =>
          if containsSubstring maxOffsetMsg msg then
            .ok ⟨trades, 1, reqs ++ [offset], log⟩
          else .error msg
      | .ok batchOpt =>
          let batch := batchOpt.getD []
          let trades := trades ++ batch
          let log := if batch.isEmpty then log else log ++ [batch]
          if batch.length < pageLimit then .ok ⟨trades, 0, reqs ++ [offset], log⟩
          else fetchTradesLoop oracle fuel trades (offset + pageLimit)
            (reqs ++ [offset]) log

/-- Reading an existing jsonl cache file (lines 124-135): strip each line,
skip empty lines, decode each remaining line, silently skipping lines that
fail to decode.  `parseLine` stands for `json.loads` on one line. -/
def readTradesLog (parseLine : String → Option Trade) (lines : List String) :
    List Trade :=
  lines.foldl (fun trades rawLine =>
    let line := rawLine.trim
    if line.isEmpty then trades
    else
      match parseLine line with
      | some t => trades ++ [t]
      | none => trades) []

/-- `fetch_all_trades`: when the jsonl cache file exists its lines are the
whole answer, with truncated=0, no requests and no new log appends;
otherwise the pagination loop runs from offset 0.  Fuel 9 is enough for
every oracle: offsets grow by 500 from 0 and the loop stops at the latest
on reaching 3500 > 3000. -/
def fetchAllTrades (parseLine : String → Option Trade)
    (cacheLines : Option (List String))
    (oracle : Nat → Except String (Option (List Trade))) :
    Except String FetchResult :=
  match cacheLines with
  | some lines => .ok ⟨readTradesLog parseLine lines, 0, [], []⟩
  | none => fetchTradesLoop oracle 9 [] 0 [] []

/-- `trade_to_date`: UTC calendar day of the trade's epoch timestamp
(`time.strftime` on `time.gmtime`), as a day number. -/
def tradeToDate (t : Trade) : Option Nat :=
  match t.timestamp with
  | none => none
  | some ts => some (ts / 86400)

/-- `defaultdict` accumulation: add `v` at key `k`, creating the bucket
at zero on first contribution. -/
def updAdd {α : Type} [Add α] (m : List (Nat × α)) (k : Nat) (v : α) :
    List (Nat × α) :=
  match m with
  | [] => [(k, v)]
  | (k', v') :: rest =>
      if k' = k then (k', v' + v) :: rest else (k', v') :: updAdd rest k v

/-- `dict.get(k, d)`. -/
def getD0 {α : Type} (m : List (Nat × α)) (k : Nat) (d : α) : α :=
  match m with
  | [] => d
  | (k', v') :: rest => if k' = k then v' else getD0 rest k d

/-- `aggregate_trades` (lines 185-201): bucket each record by UTC date,
accumulate price*size into the date's volume and bump its count, dropping
records whose timestamp, price or size is unusable. -/
def aggregateTrades (trades : List Trade) :
    List (Nat × ℚ) × List (Nat × Nat) :=
  trades.foldl (fun acc t =>
    match tradeToDate t with
    | none => acc
    | some date =>
        match t.price, t.size with
        | some price, some size =>
            (updAdd acc.1 date (price * size), updAdd acc.2 date 1)
        | _, _ => acc) ([], [])

/-- `min_trade_date` (lines 204-210): minimum UTC date over the records
with a usable timestamp, `none` when there is none. -/
def minTradeDate (trades : List Trade) : Option Nat :=
  (trades.foldl (fun dates t =>
    match tradeToDate t with
    | some d => dates ++ [d]
    | none => dates) []).min?

/-- One output row of `build_daily_volumes.main` for one (market, date). -/
structure Row where
  date : Nat
  volume : ℚ
  count : Nat
  truncated : Nat
deriving DecidableEq, Repr

/-- The row-emission loop of `main` (lines 282-292): a date of interest is
marked truncated when the fetch was truncated, a minimum fetched date is
known, and the date is at or before it; such a row is forced to volume 0
and count 0; every other row reports the aggregated volume and count with
flag 0. -/
def emitRows (vol : List (Nat × ℚ)) (cnt : List (Nat × Nat))
    (truncated : Nat) (minDate : Option Nat) (needed : List Nat) : List Row :=
  needed.map (fun d =>
    let isTrunc : Bool :=
      truncated != 0 &&
        (match minDate with
         | some md => decide (d ≤ md)
         | none => false)
    { date := d
      volume := if isTrunc then 0 else getD0 vol d 0
      count := if isTrunc then 0 else getD0 cnt d 0
      truncated := if isTrunc then 1 else 0 })

/-- One iteration of the per-market loop of `main` (lines 258-292) for a
market whose conditionId resolved.  `cached` is the content of the
whole-object aggregation cache when it hits; `fetched` is what
`fetch_all_trades` returns on the miss path; `priorTrades` models the
`trades` local variable as left behind by earlier loop iterations - on a
cache hit the code evaluates `min_trade_date(trades) if 'trades' in
locals() else None`, so it reads this leaked variable (`none` when no
earlier iteration assigned it). -/
def processMarket (cached : Option (List (Nat × ℚ) × List (Nat × Nat) × Nat))
    (fetched : List Trade × Nat) (priorTrades : Option (List Trade))
    (needed : List Nat) : List Row :=
  match cached with
  | some (vol, cnt, truncated) =>
      let minDate :=
        if truncated != 0 then
          match priorTrades with
          | some trades => minTradeDate trades
          | none => none
        else none
      emitRows vol cnt truncated minDate needed
  | none =>
      let trades := fetched.1
      let truncated := fetched.2
      let vc := aggregateTrades trades
      let minDate := if truncated != 0 then minTradeDate trades else none
      emitRows vc.1 vc.2 truncated minDate needed

/-- `ts_to_utc_date`: UTC day number of an epoch timestamp. -/
def tsToUtcDate (ts : Nat) : Nat := ts / 86400

/-- `utc_date_range`: the UTC dates from the start timestamp's day to the
end timestamp's day, inclusive (empty when the end day precedes the start
day). -/
def utcDateRange (startTs endTs : Nat) : List Nat :=
  (List.range (tsToUtcDate endTs + 1 - tsToUtcDate startTs)).map
    (tsToUtcDate startTs + ·)

/-- Python dict assignment `m[k] = v`: overwrite, else append. -/
def setPrice (m : List (Nat × ℚ)) (k : Nat) (v : ℚ) : List (Nat × ℚ) :=
  match m with
  | [] => [(k, v)]
  | (k', v') :: rest =>
      if k' = k then (k', v) :: rest else (k', v') :: setPrice rest k v

/-- Writing one returned `history` into the output map: each (t, p) pair
lands at the UTC date of t, later writes overwriting earlier ones. -/
def writeHistory (out : List (Nat × ℚ)) (hist : List (Nat × ℚ)) :
    List (Nat × ℚ) :=
  hist.foldl (fun m tp => setPrice m (tsToUtcDate tp.1) tp.2) out

/-- Python `str.lower()` restricted to ASCII (the upstream error texts are
ASCII): map each upper-case letter to its lower-case form. -/
def charToLower (c : Char) : Char :=
  if 65 ≤ c.toNat ∧ c.toNat ≤ 90 then Char.ofNat (c.toNat + 32) else c

/-- The upstream rejection that triggers window shrinking:
`"interval is too long" in str(e).lower()`. -/
def tooLong (msg : String) : Bool :=
  charsContain "interval is too long".data (msg.data.map charToLower)

/-- Outcome of the inner (window-shrinking) loop of
`fetch_prices_history_daily` at one cursor position. -/
inductive InnerOut where
  | success (out : List (Nat × ℚ)) (newCur : Nat) (atts : List (Nat × Nat))
  | giveUp (atts : List (Nat × Nat))
  | fail (msg : String) (atts : List (Nat × Nat))
  | fuelOut (atts : List (Nat × Nat))
deriving DecidableEq, Repr

/-- The inner loop of `fetch_prices_history_daily`
(polymarket_closed_markets_daily.py, lines 260-280), fuel-indexed.  The
oracle maps (startTs, endTs) parameters to the history the endpoint
returns or the error text the request raises.  While the window size is
at least one day, request `[cur, min(end, cur + window*86400)]`; on
success, write the history into the output map and advance the cursor to
window end + 1; on an error whose text contains "interval is too long",
halve the window and retry the same cursor; any other error propagates.
Each issued request is recorded as (cursor, window days) in `atts`. -/
def fetchWindow (oracle : Nat → Nat → Except String (List (Nat × ℚ)))
    (endTs cur : Nat) :
    Nat → Nat → List (Nat × ℚ) → List (Nat × Nat) → InnerOut
  | _, 0, _, atts => .fuelOut atts
  | w, fuel + 1, out, atts =>
    if 1 ≤ w then
      let windowEnd := min endTs (cur + w * 86400)
      match oracle cur windowEnd with
      | .ok hist =>
          .success (writeHistory out hist) (windowEnd + 1) (atts ++ [(cur, w)])
      | .error msg =>
          if tooLong msg then
            fetchWindow oracle endTs cur (w / 2) fuel out (atts ++ [(cur, w)])
          else .fail msg (atts ++ [(cur, w)])
    else .giveUp atts

/-- Result of a full run of the adaptive window price fetcher: the sparse
date-to-price map and the issued (cursor, window days) attempts in order. -/
structure PriceFetchResult where
  out : List (Nat × ℚ)
  atts : List (Nat × Nat)
deriving DecidableEq, Repr

/-- Outcome of the outer loop: finished, raised an error, or ran out of
modelling fuel. -/
inductive RunOut where
  | done (r : PriceFetchResult)
  | failed (msg : String) (atts : List (Nat × Nat))
  | fuelOut
deriving DecidableEq, Repr

/-- The outer loop of `fetch_prices_history_daily` (lines 256-284),
fuel-indexed: while the cursor is before the end timestamp, run the inner
loop with the full configured window; on success continue from the new
cursor; if the window shrank below one day without success, advance the
cursor by exactly one day (the safety valve).  The inner fuel
`maxDays + 1` is always sufficient because the window strictly shrinks
from `maxDays`. -/
def fetchPricesLoop (oracle : Nat → Nat → Except String (List (Nat × ℚ)))
    (endTs maxDays : Nat) :
    Nat → Nat → List (Nat × ℚ) → List (Nat × Nat) → RunOut
  | 0, _, _, _ => .fuelOut
  | fuel + 1, cur, out, atts =>
    if cur < endTs then
      match fetchWindow oracle endTs cur maxDays (maxDays + 1) out atts with
      | .success out' cur' atts' =>
          fetchPricesLoop oracle endTs maxDays fuel cur' out' atts'
      | .giveUp atts' =>
          fetchPricesLoop oracle endTs maxDays fuel (cur + 86400) out atts'
      | .fail msg atts' => .failed msg atts'
      | .fuelOut _ => .fuelOut
    else .done ⟨out, atts⟩

/-- The configured maximum window of `fetch_prices_history_daily`. -/
def maxDays30 : Nat := 30

/-- `fetch_prices_history_daily(clob_base, token_id, start_ts, end_ts)`. -/
def fetchPricesHistoryDaily
    (oracle : Nat → Nat → Except String (List (Nat × ℚ)))
    (startTs endTs fuel : Nat) : RunOut :=
  fetchPricesLoop oracle endTs maxDays30 fuel startTs [] []

/-- The succession rule the adaptive fetcher's request trace must follow:
after an attempt `a = (cursor, window)`, if the oracle succeeds the next
attempt is at `window end + 1` with the window reset to the maximum; if
the oracle rejects the interval as too long, the next attempt repeats the
same cursor with the window halved when that is still at least one day,
and otherwise moves the cursor one day forward with the window reset; any
other error allows no next attempt. -/
def nextAtt (oracle : Nat → Nat → Except String (List (Nat × ℚ)))
    (endTs : Nat) (a b : Nat × Nat) : Bool :=
  match oracle a.1 (min endTs (a.1 + a.2 * 86400)) with
  | .ok _ => b == (min endTs (a.1 + a.2 * 86400) + 1, maxDays30)
  | .error msg =>
      if tooLong msg then
        if 2 ≤ a.2 then b == (a.1, a.2 / 2)
        else b == (a.1 + 86400, maxDays30)
      else false

/-- The daily-row merge loop of `polymarket_closed_markets_daily.main`
(lines 436-452): walk the dates in order carrying the last observed YES
and NO prices; a date with an observation replaces the carried value, and
each row reports the carried values (`none` renders as the empty cell). -/
def mergeDaily (yesH noH : Nat → Option ℚ) :
    List Nat → Option ℚ → Option ℚ → List (Nat × Option ℚ × Option ℚ)
  | [], _, _ => []
  | d :: rest, lastYes, lastNo =>
      let lastYes' := match yesH d with | some p => some p | none => lastYes
      let lastNo' := match noH d with | some p => some p | none => lastNo
      (d, lastYes', lastNo') :: mergeDaily yesH noH rest lastYes' lastNo'

/-- The merged daily series over the market's date range, starting with no
carried values. -/
def mergeRows (yesH noH : Nat → Option ℚ) (startTs endTs : Nat) :
    List (Nat × Option ℚ × Option ℚ) :=
  mergeDaily yesH noH (utcDateRange startTs endTs) none none

/-- The specification's forward-fill: the value observed at the greatest
date at most `lo + k` that has an observation, looking no further back
than `lo`; `none` when no date in `[lo, lo + k]` has one. -/
def ffillFrom (h : Nat → Option ℚ) (lo : Nat) : Nat → Option ℚ
  | 0 => h lo
  | k + 1 =>
      match h (lo + k + 1) with
      | some p => some p
      | none => ffillFrom h lo k

/-- The two situations in which the pagination loop stops with
truncated=1, as the specification states them: the offset exceeds the
3000 ceiling before a request is issued, or an issued request raises the
upstream cap message; `advance` steps walk full pages toward one of the
two. -/
inductive TruncStop (oracle : Nat → Except String (Option (List Trade))) :
    Nat → Prop where
  | ceiling (off : Nat) : 3000 < off → TruncStop oracle off
  | capMsg (off : Nat) (msg : String) : off ≤ 3000 →
      oracle off = .error msg → containsSubstring maxOffsetMsg msg = true →
      TruncStop oracle off
  | advance (off : Nat) (b : Option (List Trade)) : off ≤ 3000 →
      oracle off = .ok b → ¬(b.getD []).length < pageLimit →
      TruncStop oracle (off + pageLimit) → TruncStop oracle off

/-- An upstream holding exactly the records `recs`, serving the slice of
`pageLimit` records from each requested offset. -/
def pageOracle (recs : List Trade) (off : Nat) :
    Except String (Option (List Trade)) :=
  .ok (some ((recs.drop off).take pageLimit))

/-! Concrete inputs used to instantiate the theorems. -/

/-- A transport that answers 503 on every attempt. -/
def oracle503 : Nat → Attempt Unit :=
  fun _ => .resp 503 "Service Unavailable" (.error "x")

/-- A transport that answers 200 with a body JSON decoding rejects, on
every attempt. -/
def parseFailOracle : Nat → Attempt Unit :=
  fun _ => .resp 200 "bad" (.error "Expecting value: line 1 column 1 (char 0)")

/-- A trade endpoint that raises the upstream offset-cap message on every
page. -/
def capOracle : Nat → Except String (Option (List Trade)) :=
  fun _ => .error maxOffsetMsg

/-- A trade record with no usable fields. -/
def dummyTrade : Trade := ⟨none, none, none⟩

/-- A single trade on UTC day 100 with price 1/2 and size 10. -/
def tradeD100 : Trade := ⟨some (100 * 86400), some (1/2), some 10⟩

/-- The specification's forward-fill example: YES observed at day 10 with
0.3 and at day 12 with 0.6. -/
def exYes : Nat → Option ℚ :=
  fun d => if d = 10 then some (3/10) else if d = 12 then some (6/10) else none

/-- A price-history endpoint that rejects every window as too long. -/
def orcReject : Nat → Nat → Except String (List (Nat × ℚ)) :=
  fun _ _ => .error "interval is too long"

/-- A price-history endpoint that rejects every window at cursor 0 as too
long and answers any other well-formed window with one in-window point. -/
def orcMix : Nat → Nat → Except String (List (Nat × ℚ)) :=
  fun cu we =>
    if cu = 0 then .error "interval is too long"
    else if cu ≤ we then .ok [(cu, 1/2)] else .ok []


/-- The value carried by the merge loop after walking the dates `ds`:
start from `acc` and replace it whenever a date has an observation. -/
def carryFold (h : Nat → Option ℚ) (acc : Option ℚ) (ds : List Nat) : Option ℚ :=
  ds.foldl (fun a d => match h d with | some p => some p | none => a) acc

/-- The documented behaviour of the price-history endpoint: every point of
a returned history lies inside the requested window. -/
def InWindow (oracle : Nat → Nat → Except String (List (Nat × ℚ))) : Prop :=
  ∀ c we hist, oracle c we = .ok hist → ∀ tp ∈ hist, c ≤ tp.1 ∧ tp.1 ≤ we


/-- step unfold test -/
lemma step503 {J : Type} (text : String) (pr : Except String J)
    (a n b c s : Nat) (lastErr : Option String) :
    requestJsonLoop (fun _ => .resp 503 text pr) a (n + 1) b lastErr c s =
      requestJsonLoop (fun _ => .resp 503 text pr) (a + 1) n (min (b * 2) 16)
        (some (httpErrMsg 503 text)) (c + 1) (s + b) := rfl

lemma requestJsonLoop_all503 {J : Type} (text : String) (pr : Except String J) :
    ∀ r a b lastErr c s, 1 ≤ r →
    requestJsonLoop (fun _ => .resp 503 text pr) a r b lastErr c s =
      ⟨.error ("failed after retries: " ++ httpErrMsg 503 text),
        c + r, s + backoffSum b r⟩ := by
  intro r
  induction r with
  | zero => intro a b lastErr c s h; omega
  | succ n ih =>
    intro a b lastErr c s _
    rw [step503]
    rcases Nat.eq_zero_or_pos n with hn | hn
    · subst hn
      rfl
    · rw [ih (a + 1) (min (b * 2) 16) _ (c + 1) (s + b) hn]
      congr 1
      · omega
      · show s + b + backoffSum (min (b * 2) 16) n = s + backoffSum b (n + 1)
        rw [backoffSum]
        omega



lemma stepParse {J : Type} (status : Nat) (text pmsg : String)
    (hst : status < 400) (htx : text.isEmpty = false)
    (a n b c s : Nat) (lastErr : Option String) :
    requestJsonLoop (fun _ => Attempt.resp status text (Except.error pmsg) : Nat → Attempt J)
        a (n + 1) b lastErr c s =
      requestJsonLoop (fun _ => Attempt.resp status text (Except.error pmsg) : Nat → Attempt J)
        (a + 1) n (min (b * 2) 16) (some pmsg) (c + 1) (s + b) := by
  rw [requestJsonLoop]
  simp [hst, htx]

lemma requestJsonLoop_parseFail {J : Type} (status : Nat) (text pmsg : String)
    (hst : status < 400) (htx : text.isEmpty = false) :
    ∀ r a b lastErr c s, 1 ≤ r →
    requestJsonLoop (fun _ => Attempt.resp status text (Except.error pmsg) : Nat → Attempt J)
        a r b lastErr c s =
      ⟨.error ("failed after retries: " ++ pmsg), c + r, s + backoffSum b r⟩ := by
  intro r
  induction r with
  | zero => intro a b lastErr c s h; omega
  | succ n ih =>
    intro a b lastErr c s _
    rw [stepParse status text pmsg hst htx]
    rcases Nat.eq_zero_or_pos n with hn | hn
    · subst hn
      rfl
    · rw [ih (a + 1) (min (b * 2) 16) _ (c + 1) (s + b) hn]
      congr 1
      · omega
      · show s + b + backoffSum (min (b * 2) 16) n = s + backoffSum b (n + 1)
        rw [backoffSum]
        omega



lemma backoffSum_pow (r : Nat) :
    ∀ j, backoffSum (min (2 ^ j) 16) r =
      ∑ k in Finset.range r, min (2 ^ (j + k)) 16 := by
  induction r with
  | zero => intro j; simp [backoffSum]
  | succ n ih =>
    intro j
    have hmin : min (min (2 ^ j) 16 * 2) 16 = min (2 ^ (j + 1)) 16 := by
      rcases le_total (2 ^ j) 16 with h | h
      · rw [min_eq_left h, pow_succ]
      · have h2 : (16 : Nat) ≤ 2 ^ (j + 1) := le_trans h (by rw [pow_succ]; omega)
        rw [min_eq_right h]
        omega
    rw [backoffSum, hmin, ih (j + 1), Finset.sum_range_succ', add_comm]
    congr 1
    apply Finset.sum_congr rfl
    intro k _
    congr 2
    omega

lemma backoffSum_one (m : Nat) : backoffSum 1 m = codeSleep m := by
  have h0 : (1 : Nat) = min (2 ^ 0) 16 := by norm_num
  rw [h0, backoffSum_pow m 0, codeSleep, ← Nat.Ico_succ_right,
    Finset.sum_Ico_eq_sum_range]
  apply Finset.sum_congr
  · norm_num
  · intro k _
    congr 2
    omega



/-- C2 counterexample: with maxAttempts = 1 the transport sleeps 1 second
(the back-off sleep also runs after the final failed attempt), while the
claim's formula sums over the empty range 1..0 and gives 0. -/
theorem c2_counterexample :
    (requestJson oracle503 1).slept = 1 ∧ claimSleep 1 = 0 ∧
    (requestJson oracle503 1).slept ≠ claimSleep 1 := by
  refine ⟨rfl, by decide, by decide⟩

/-- C2 (amended): for a transport answering 503 on every attempt,
`request_json` makes exactly maxAttempts calls, sleeps
sum(min(2^(k-1),16) for k in 1..maxAttempts) seconds - one back-off sleep
per failed attempt, the final one included - and raises an error carrying
the last observed error text. -/
theorem c2_backoff_bound {J : Type} (text : String) (pr : Except String J)
    (m : Nat) (hm : 1 ≤ m) :
    (requestJson (fun _ => .resp 503 text pr) m).calls = m ∧
    (requestJson (fun _ => .resp 503 text pr) m).slept = codeSleep m ∧
    (requestJson (fun _ => .resp 503 text pr) m).result =
      .error ("failed after retries: " ++ httpErrMsg 503 text) := by
  have h := requestJsonLoop_all503 text pr m 1 1 none 0 0 hm
  rw [requestJson, h]
  refine ⟨by simp, ?_, rfl⟩
  show 0 + backoffSum 1 m = codeSleep m
  rw [Nat.zero_add, backoffSum_one]

/-- Witness for C2 at maxAttempts = 3. -/
theorem c2_backoff_bound_witness :
    (requestJson oracle503 3).calls = 3 ∧
    (requestJson oracle503 3).slept = codeSleep 3 ∧
    (requestJson oracle503 3).result =
      .error ("failed after retries: " ++ httpErrMsg 503 "Service Unavailable") :=
  c2_backoff_bound "Service Unavailable" (.error "x") 3 (by decide)

/-- C3 counterexample: `request_json` with two attempts against a 200
response whose body fails JSON decoding performs both attempts - the
decode failure is caught by the blanket except handler and retried, not
fatal on the first attempt. -/
theorem c3_counterexample :
    (requestJson parseFailOracle 2).calls = 2 ∧
    (requestJson parseFailOracle 2).calls ≠ 1 ∧
    (requestJson parseFailOracle 2).result =
      .error "failed after retries: Expecting value: line 1 column 1 (char 0)" := by
  refine ⟨rfl, by decide, rfl⟩

/-- C3 (amended): in `_request_with_retry` a decode failure on a success
status is fatal at once - one call, no retry - and an empty body on a
success status yields the null result; in `request_json` the empty body
also yields null, but a decode failure is retried like a transient error,
exhausting all attempts and raising with the decode error text. -/
theorem c3_parse_failure_handling :
    (∀ (J : Type) (oracle : Nat → Attempt J) (status : Nat) (text pmsg : String),
       status < 400 → text.isEmpty = false →
       oracle 0 = .resp status text (.error pmsg) →
       requestWithRetry oracle = ⟨.error pmsg, 1, 0⟩) ∧
    (∀ (J : Type) (oracle : Nat → Attempt J) (status : Nat) (text : String)
       (parsed : Except String J),
       status < 400 → text.isEmpty = true →
       oracle 0 = .resp status text parsed →
       requestWithRetry oracle = ⟨.ok none, 1, 0⟩) ∧
    (∀ (J : Type) (status : Nat) (text pmsg : String) (m : Nat),
       status < 400 → text.isEmpty = false → 1 ≤ m →
       (requestJson (fun _ => Attempt.resp status text (Except.error pmsg) :
           Nat → Attempt J) m).result =
         .error ("failed after retries: " ++ pmsg) ∧
       (requestJson (fun _ => Attempt.resp status text (Except.error pmsg) :
           Nat → Attempt J) m).calls = m) ∧
    (∀ (J : Type) (oracle : Nat → Attempt J) (status : Nat) (text : String)
       (parsed : Except String J) (m : Nat),
       status < 400 → text.isEmpty = true → 1 ≤ m →
       oracle 1 = .resp status text parsed →
       requestJson oracle m = ⟨.ok none, 1, 0⟩) := by
  refine ⟨?_, ?_, ?_, ?_⟩
  · intro J oracle status text pmsg hst htx h0
    rw [requestWithRetry, requestWithRetryLoop, h0]
    simp [hst, htx]
  · intro J oracle status text parsed hst htx h0
    rw [requestWithRetry, requestWithRetryLoop, h0]
    simp [hst, htx]
  · intro J status text pmsg m hst htx hm
    have h := requestJsonLoop_parseFail (J := J) status text pmsg hst htx m 1 1 none 0 0 hm
    rw [requestJson, h]
    exact ⟨rfl, by simp⟩
  · intro J oracle status text parsed m hst htx hm h1
    cases m with
    | zero => omega
    | succ n =>
      rw [requestJson, requestJsonLoop, h1]
      simp [hst, htx]

/-- Witness for C3 at a 200 response with body "bad". -/
theorem c3_parse_failure_handling_witness :
    requestWithRetry
        (fun _ => Attempt.resp 200 "bad" (Except.error "Expecting value") :
          Nat → Attempt Unit) =
      ⟨.error "Expecting value", 1, 0⟩ ∧
    (requestJson
        (fun _ => Attempt.resp 200 "bad" (Except.error "Expecting value") :
          Nat → Attempt Unit) 3).calls = 3 ∧
    requestWithRetry
        (fun _ => Attempt.resp 204 "" (Except.error "x") : Nat → Attempt Unit) =
      ⟨.ok none, 1, 0⟩ ∧
    requestJson
        (fun _ => Attempt.resp 204 "" (Except.error "x") : Nat → Attempt Unit) 3 =
      ⟨.ok none, 1, 0⟩ := by
  refine ⟨?_, ?_, ?_, ?_⟩
  · exact c3_parse_failure_handling.1 Unit _ 200 "bad" "Expecting value"
      (by decide) (by decide) rfl
  · exact (c3_parse_failure_handling.2.2.1 Unit 200 "bad" "Expecting value" 3
      (by decide) (by decide) (by decide)).2
  · exact c3_parse_failure_handling.2.1 Unit _ 204 "" (.error "x")
      (by decide) (by decide) rfl
  · exact c3_parse_failure_handling.2.2.2 Unit _ 204 "" (.error "x") 3
      (by decide) (by decide) (by decide) rfl



/-! Helper lemmas about the pagination loop. -/

lemma fetchTradesLoop_ceiling (oracle : Nat → Except String (Option (List Trade)))
    (fuel : Nat) (trades : List Trade) (off : Nat) (reqs : List Nat)
    (log : List (List Trade)) (h : 3000 < off) :
    fetchTradesLoop oracle (fuel + 1) trades off reqs log =
      .ok ⟨trades, 1, reqs, log⟩ := by
  rw [fetchTradesLoop]
  simp [h]

lemma fetchTradesLoop_capMsg (oracle : Nat → Except String (Option (List Trade)))
    (fuel : Nat) (trades : List Trade) (off : Nat) (reqs : List Nat)
    (log : List (List Trade)) (msg : String) (h : ¬3000 < off)
    (ho : oracle off = .error msg)
    (hc : containsSubstring maxOffsetMsg msg = true) :
    fetchTradesLoop oracle (fuel + 1) trades off reqs log =
      .ok ⟨trades, 1, reqs ++ [off], log⟩ := by
  rw [fetchTradesLoop]
  simp [h, ho, hc]

lemma fetchTradesLoop_errProp (oracle : Nat → Except String (Option (List Trade)))
    (fuel : Nat) (trades : List Trade) (off : Nat) (reqs : List Nat)
    (log : List (List Trade)) (msg : String) (h : ¬3000 < off)
    (ho : oracle off = .error msg)
    (hc : containsSubstring maxOffsetMsg msg = false) :
    fetchTradesLoop oracle (fuel + 1) trades off reqs log = .error msg := by
  rw [fetchTradesLoop]
  simp [h, ho, hc]

lemma fetchTradesLoop_okShort (oracle : Nat → Except String (Option (List Trade)))
    (fuel : Nat) (trades : List Trade) (off : Nat) (reqs : List Nat)
    (log : List (List Trade)) (b : Option (List Trade)) (h : ¬3000 < off)
    (ho : oracle off = .ok b) (hlen : (b.getD []).length < pageLimit) :
    fetchTradesLoop oracle (fuel + 1) trades off reqs log =
      .ok ⟨trades ++ b.getD [], 0, reqs ++ [off],
        if (b.getD []).isEmpty then log else log ++ [b.getD []]⟩ := by
  rw [fetchTradesLoop]
  simp [h, ho, hlen]

lemma fetchTradesLoop_okFull (oracle : Nat → Except String (Option (List Trade)))
    (fuel : Nat) (trades : List Trade) (off : Nat) (reqs : List Nat)
    (log : List (List Trade)) (b : Option (List Trade)) (h : ¬3000 < off)
    (ho : oracle off = .ok b) (hlen : ¬(b.getD []).length < pageLimit) :
    fetchTradesLoop oracle (fuel + 1) trades off reqs log =
      fetchTradesLoop oracle fuel (trades ++ b.getD []) (off + pageLimit)
        (reqs ++ [off]) (log ++ [b.getD []]) := by
  rw [fetchTradesLoop]
  have hne : (b.getD []).isEmpty = false := by
    cases hb : (b.getD []).isEmpty
    · rfl
    · exfalso
      apply hlen
      rw [List.isEmpty_iff] at hb
      rw [hb]
      simp [pageLimit]
  simp only [h, if_false, ho, hlen, hne]
  split <;> simp_all

lemma truncOne_truncStop (oracle : Nat → Except String (Option (List Trade))) :
    ∀ fuel off trades reqs log r,
      fetchTradesLoop oracle fuel trades off reqs log = .ok r →
      r.truncated = 1 → TruncStop oracle off := by
  intro fuel
  induction fuel with
  | zero =>
    intro off trades reqs log r h
    rw [fetchTradesLoop] at h
    simp at h
  | succ n ih =>
    intro off trades reqs log r h htr
    by_cases hoff : 3000 < off
    · exact TruncStop.ceiling off hoff
    · cases ho : oracle off with
      | error msg =>
        cases hc : containsSubstring maxOffsetMsg msg with
        | true =>
          exact TruncStop.capMsg off msg (Nat.le_of_not_lt hoff) ho hc
        | false =>
          rw [fetchTradesLoop_errProp oracle n trades off reqs log msg hoff ho hc] at h
          simp at h
      | ok b =>
        by_cases hlen : (b.getD []).length < pageLimit
        · rw [fetchTradesLoop_okShort oracle n trades off reqs log b hoff ho hlen] at h
          injection h with h'
          rw [← h'] at htr
          simp at htr
        · rw [fetchTradesLoop_okFull oracle n trades off reqs log b hoff ho hlen] at h
          exact TruncStop.advance off b (Nat.le_of_not_lt hoff) ho hlen
            (ih _ _ _ _ r h htr)

lemma truncStop_truncOne (oracle : Nat → Except String (Option (List Trade))) :
    ∀ off, TruncStop oracle off →
    ∀ fuel trades reqs log r,
      fetchTradesLoop oracle fuel trades off reqs log = .ok r →
      r.truncated = 1 := by
  intro off h
  induction h with
  | ceiling off hoff =>
    intro fuel trades reqs log r h
    cases fuel with
    | zero => rw [fetchTradesLoop] at h; simp at h
    | succ n =>
      rw [fetchTradesLoop_ceiling oracle n trades off reqs log hoff] at h
      injection h with h'
      rw [← h']
  | capMsg off msg hle ho hc =>
    intro fuel trades reqs log r h
    cases fuel with
    | zero => rw [fetchTradesLoop] at h; simp at h
    | succ n =>
      rw [fetchTradesLoop_capMsg oracle n trades off reqs log msg
        (Nat.not_lt.mpr hle) ho hc] at h
      injection h with h'
      rw [← h']
  | advance off b hle ho hlen hstop ih =>
    intro fuel trades reqs log r h
    cases fuel with
    | zero => rw [fetchTradesLoop] at h; simp at h
    | succ n =>
      rw [fetchTradesLoop_okFull oracle n trades off reqs log b
        (Nat.not_lt.mpr hle) ho hlen] at h
      exact ih n _ _ _ r h



lemma range_map_peel {α : Type} (k : Nat) (f : Nat → α) :
    (List.range (k + 1)).map f = f 0 :: (List.range k).map (fun j => f (j + 1)) := by
  rw [List.range_succ_eq_map, List.map_cons, List.map_map]
  rfl

lemma fetchTradesLoop_pages (recs : List Trade) :
    ∀ fuel off trades reqs log,
      off % 500 = 0 → off ≤ 3000 → recs.length < 3500 →
      (recs.length - off) / 500 + 1 ≤ fuel →
      fetchTradesLoop (pageOracle recs) fuel trades off reqs log =
        .ok ⟨trades ++ recs.drop off, 0,
          reqs ++ (List.range ((recs.length - off) / 500 + 1)).map
            (fun j => off + j * 500),
          log ++ ((List.range ((recs.length - off) / 500 + 1)).map
            (fun j => (recs.drop (off + j * 500)).take 500)).filter
            (fun b => !b.isEmpty)⟩ := by
  intro fuel
  induction fuel with
  | zero => intro off trades reqs log _ _ _ hf; omega
  | succ n ih =>
    intro off trades reqs log hmod hoff hN hf
    have hnotlt : ¬3000 < off := Nat.not_lt.mpr hoff
    have hpage : pageOracle recs off = .ok (some ((recs.drop off).take 500)) := rfl
    by_cases hshort : recs.length - off < 500
    · have hlen : ((some ((recs.drop off).take 500)).getD []).length < pageLimit := by
        simp [pageLimit, List.length_take, List.length_drop]
        omega
      rw [fetchTradesLoop_okShort (pageOracle recs) n trades off reqs log _ hnotlt
        hpage hlen]
      have hdiv : (recs.length - off) / 500 = 0 := Nat.div_eq_of_lt hshort
      have htake : (recs.drop off).take 500 = recs.drop off := by
        apply List.take_of_length_le
        rw [List.length_drop]
        omega
      rw [hdiv]
      cases hemp : (recs.drop off).isEmpty with
      | true =>
        rw [List.isEmpty_iff] at hemp
        simp [List.range_succ, htake, hemp]
      | false =>
        simp [List.range_succ, htake, hemp, List.filter_cons]
    · have hlen : ¬((some ((recs.drop off).take 500)).getD []).length < pageLimit := by
        simp [pageLimit, List.length_take, List.length_drop]
        omega
      rw [fetchTradesLoop_okFull (pageOracle recs) n trades off reqs log _ hnotlt
        hpage hlen]
      simp only [Option.getD_some, pageLimit]
      have hlong : 500 ≤ recs.length - off := Nat.le_of_not_lt hshort
      have hsub : recs.length - (off + 500) = recs.length - off - 500 := by omega
      have hfuel : (recs.length - (off + 500)) / 500 + 1 ≤ n := by
        rw [hsub]
        omega
      have hrec := ih (off + 500) (trades ++ (recs.drop off).take 500)
        (reqs ++ [off]) (log ++ [(recs.drop off).take 500])
        (by omega) (by omega) hN hfuel
      rw [hrec]
      have hcount : (recs.length - off) / 500 = (recs.length - (off + 500)) / 500 + 1 := by
        rw [hsub]
        omega
      rw [hcount]
      have h1 : recs.drop (off + 500) = (recs.drop off).drop 500 := by
        rw [List.drop_drop]
      have e1 : trades ++ (recs.drop off).take 500 ++ recs.drop (off + 500)
          = trades ++ recs.drop off := by
        rw [List.append_assoc, h1, List.take_append_drop]
      have e2 : reqs ++ [off] ++ (List.range ((recs.length - (off + 500)) / 500 + 1)).map
            (fun j => off + 500 + j * 500)
          = reqs ++ (List.range ((recs.length - (off + 500)) / 500 + 1 + 1)).map
            (fun j => off + j * 500) := by
      -- peel the first entry off the longer range on the right
        conv_rhs => rw [range_map_peel ((recs.length - (off + 500)) / 500 + 1)
          (fun j => off + j * 500)]
        rw [List.append_assoc, List.singleton_append]
        have emap : (List.range ((recs.length - (off + 500)) / 500 + 1)).map
              (fun j => off + (j + 1) * 500)
            = (List.range ((recs.length - (off + 500)) / 500 + 1)).map
              (fun j => off + 500 + j * 500) := by
          apply List.map_congr_left
          intro j _
          ring
        simp only [Nat.zero_mul, Nat.add_zero, emap]
      have hfull : ((recs.drop off).take 500).isEmpty = false := by
        have hl : ((recs.drop off).take 500).length = 500 := by
          rw [List.length_take, List.length_drop]
          omega
        cases h' : ((recs.drop off).take 500).isEmpty
        · rfl
        · rw [List.isEmpty_iff] at h'
          rw [h'] at hl
          simp at hl
      have e3 : log ++ [(recs.drop off).take 500] ++
            (((List.range ((recs.length - (off + 500)) / 500 + 1)).map
              (fun j => (recs.drop (off + 500 + j * 500)).take 500)).filter
              (fun b => !b.isEmpty))
          = log ++ (((List.range ((recs.length - (off + 500)) / 500 + 1 + 1)).map
              (fun j => (recs.drop (off + j * 500)).take 500)).filter
              (fun b => !b.isEmpty)) := by
        conv_rhs => rw [range_map_peel ((recs.length - (off + 500)) / 500 + 1)
          (fun j => (recs.drop (off + j * 500)).take 500)]
        rw [List.append_assoc, List.singleton_append]
        have emap3 : (List.range ((recs.length - (off + 500)) / 500 + 1)).map
              (fun j => (recs.drop (off + (j + 1) * 500)).take 500)
            = (List.range ((recs.length - (off + 500)) / 500 + 1)).map
              (fun j => (recs.drop (off + 500 + j * 500)).take 500) := by
          apply List.map_congr_left
          intro j _
          have hj : off + (j + 1) * 500 = off + 500 + j * 500 := by ring
          rw [hj]
        simp only [Nat.zero_mul, Nat.add_zero, emap3, List.filter_cons, hfull,
          Bool.not_false, if_true]
      rw [e1, e2, e3]



/-- C6: the pagination loop sets truncated=1 in exactly the two stated
situations - offset beyond the 3000 ceiling before issuing a request
(stopping with no request issued), or a transport error carrying the
upstream cap message (stopping after that single issue) - and any other
transport error propagates unchanged. -/
theorem c6_truncation_conditions :
    (∀ (oracle : Nat → Except String (Option (List Trade))) (fuel : Nat)
       (trades : List Trade) (off : Nat) (reqs : List Nat)
       (log : List (List Trade)), 3000 < off →
       fetchTradesLoop oracle (fuel + 1) trades off reqs log =
         .ok ⟨trades, 1, reqs, log⟩) ∧
    (∀ (oracle : Nat → Except String (Option (List Trade))) (fuel : Nat)
       (trades : List Trade) (off : Nat) (reqs : List Nat)
       (log : List (List Trade)) (msg : String), off ≤ 3000 →
       oracle off = .error msg → containsSubstring maxOffsetMsg msg = true →
       fetchTradesLoop oracle (fuel + 1) trades off reqs log =
         .ok ⟨trades, 1, reqs ++ [off], log⟩) ∧
    (∀ (oracle : Nat → Except String (Option (List Trade))) (fuel : Nat)
       (trades : List Trade) (off : Nat) (reqs : List Nat)
       (log : List (List Trade)) (msg : String), off ≤ 3000 →
       oracle off = .error msg → containsSubstring maxOffsetMsg msg = false →
       fetchTradesLoop oracle (fuel + 1) trades off reqs log = .error msg) ∧
    (∀ (oracle : Nat → Except String (Option (List Trade)))
       (parseLine : String → Option Trade) (r : FetchResult),
       fetchAllTrades parseLine none oracle = .ok r →
       (r.truncated = 1 ↔ TruncStop oracle 0)) := by
  refine ⟨?_, ?_, ?_, ?_⟩
  · intro oracle fuel trades off reqs log h
    exact fetchTradesLoop_ceiling oracle fuel trades off reqs log h
  · intro oracle fuel trades off reqs log msg h ho hc
    exact fetchTradesLoop_capMsg oracle fuel trades off reqs log msg
      (Nat.not_lt.mpr h) ho hc
  · intro oracle fuel trades off reqs log msg h ho hc
    exact fetchTradesLoop_errProp oracle fuel trades off reqs log msg
      (Nat.not_lt.mpr h) ho hc
  · intro oracle parseLine r h
    constructor
    · intro htr
      exact truncOne_truncStop oracle 9 0 [] [] [] r h htr
    · intro hstop
      exact truncStop_truncOne oracle 0 hstop 9 [] [] [] r h

/-- Witness for C6 at a concrete oracle that raises the cap message at
offset 0. -/
theorem c6_truncation_conditions_witness :
    fetchTradesLoop capOracle 1 [] 0 [] [] = .ok ⟨[], 1, [0], []⟩ ∧
    TruncStop capOracle 0 := by
  constructor
  · exact c6_truncation_conditions.2.1 capOracle 0 [] 0 [] [] maxOffsetMsg
      (by decide) rfl (by decide)
  · exact (c6_truncation_conditions.2.2.2 capOracle (fun _ => none)
      ⟨[], 1, [0], []⟩ (by rfl)).mp rfl

set_option maxRecDepth 100000 in
/-- C7 counterexample: an upstream holding 1000 records (pages 500, 500,
then the empty page) takes 3 page requests, exceeding
ceil(1000/500) = 2; and an upstream holding 3500 records ends with
truncated=1, not 0. -/
theorem c7_counterexample :
    ((fetchAllTrades (fun _ => none) none
        (pageOracle (List.replicate 1000 dummyTrade))).map
      (fun r => r.reqs.length) = .ok 3 ∧ (1000 + 499) / 500 = 2 ∧ ¬3 ≤ 2) ∧
    (fetchAllTrades (fun _ => none) none
        (pageOracle (List.replicate 3500 dummyTrade))).map
      (fun r => r.truncated) = .ok 1 := by
  refine ⟨⟨by rfl, by norm_num, by norm_num⟩, by rfl⟩

lemma fetchTradesLoop_overflow (recs : List Trade) (hN : 3500 ≤ recs.length) :
    ∀ fuel off trades reqs log,
      off % 500 = 0 → off ≤ 3500 →
      (3500 - off) / 500 + 1 ≤ fuel →
      ∃ r, fetchTradesLoop (pageOracle recs) fuel trades off reqs log = .ok r ∧
        r.truncated = 1 := by
  intro fuel
  induction fuel with
  | zero => intro off trades reqs log _ _ hf; omega
  | succ n ih =>
    intro off trades reqs log hmod hoff hf
    by_cases hc : 3000 < off
    · exact ⟨⟨trades, 1, reqs, log⟩,
        fetchTradesLoop_ceiling (pageOracle recs) n trades off reqs log hc, rfl⟩
    · have hpage : pageOracle recs off = .ok (some ((recs.drop off).take 500)) := rfl
      have hlen : ¬((some ((recs.drop off).take 500)).getD []).length < pageLimit := by
        simp [pageLimit, List.length_take, List.length_drop]
        omega
      rw [fetchTradesLoop_okFull (pageOracle recs) n trades off reqs log _ hc
        hpage hlen]
      have hsub : 3500 - (off + 500) = 3500 - off - 500 := by omega
      have hfn : (3500 - (off + 500)) / 500 + 1 ≤ n := by
        rw [hsub]
        omega
      show ∃ r, fetchTradesLoop (pageOracle recs) n _ (off + 500) _ _ = .ok r ∧
        r.truncated = 1
      exact ih (off + 500) _ _ _ (by omega) (by omega) hfn

/-- C7 (amended): for an upstream of N records in pages of the fixed
limit, with N below 3500 so the short page arrives before the offset
ceiling, the fetcher stops with truncated=0 after exactly N/limit + 1
page requests (ceil(N/limit) when the limit does not divide N, one more -
the confirming short page - when it does), accumulating all N records and
appending the non-empty pages to the log in strictly increasing offset
order, the offset advancing by the limit each step; and for every N at or
above 3500 the fetcher instead stops with truncated=1. -/
theorem c7_pagination_termination (parseLine : String → Option Trade)
    (recs : List Trade) :
    (recs.length < 3500 →
      fetchAllTrades parseLine none (pageOracle recs) =
        .ok ⟨recs, 0,
          (List.range (recs.length / pageLimit + 1)).map (fun j => j * pageLimit),
          ((List.range (recs.length / pageLimit + 1)).map
            (fun j => (recs.drop (j * pageLimit)).take pageLimit)).filter
            (fun b => !b.isEmpty)⟩ ∧
      (recs.length % pageLimit ≠ 0 →
        recs.length / pageLimit + 1 =
          (recs.length + (pageLimit - 1)) / pageLimit)) ∧
    (3500 ≤ recs.length →
      (fetchAllTrades parseLine none (pageOracle recs)).map
        (fun r => r.truncated) = .ok 1) := by
  constructor
  · intro hN
    constructor
    · have h := fetchTradesLoop_pages recs 9 0 [] [] []
        (by norm_num) (by norm_num) hN (by omega)
      show fetchTradesLoop (pageOracle recs) 9 [] 0 [] [] = _
      rw [h]
      simp [pageLimit, Nat.mul_comm]
    · intro hmod
      simp only [pageLimit] at hmod ⊢
      omega
  · intro hN
    rcases fetchTradesLoop_overflow recs hN 9 0 [] [] []
      (by norm_num) (by norm_num) (by norm_num) with ⟨r, hr, htr⟩
    show (fetchTradesLoop (pageOracle recs) 9 [] 0 [] []).map
      (fun r => r.truncated) = .ok 1
    rw [hr]
    show Except.ok r.truncated = Except.ok 1
    rw [htr]

/-- Witness for C7 at a concrete 3-record upstream (exact short-run
result) and a concrete 3600-record upstream (truncated overflow). -/
theorem c7_pagination_termination_witness :
    (fetchAllTrades (fun _ => none) none
        (pageOracle (List.replicate 3 dummyTrade)) =
      .ok ⟨List.replicate 3 dummyTrade, 0,
        (List.range ((List.replicate 3 dummyTrade).length / pageLimit + 1)).map
          (fun j => j * pageLimit),
        ((List.range ((List.replicate 3 dummyTrade).length / pageLimit + 1)).map
          (fun j => ((List.replicate 3 dummyTrade).drop (j * pageLimit)).take
            pageLimit)).filter (fun b => !b.isEmpty)⟩ ∧
    ((List.replicate 3 dummyTrade).length % pageLimit ≠ 0 →
      (List.replicate 3 dummyTrade).length / pageLimit + 1 =
        ((List.replicate 3 dummyTrade).length + (pageLimit - 1)) / pageLimit)) ∧
    (fetchAllTrades (fun _ => none) none
        (pageOracle (List.replicate 3600 dummyTrade))).map
      (fun r => r.truncated) = .ok 1 := by
  constructor
  · exact (c7_pagination_termination (fun _ => none)
      (List.replicate 3 dummyTrade)).1 (by norm_num)
  · exact (c7_pagination_termination (fun _ => none)
      (List.replicate 3600 dummyTrade)).2 (by norm_num)

/-- C8: when the jsonl cache file exists the fetcher issues no network
requests, appends nothing, reports truncated=0, and returns exactly the
records decoded from the log lines, skipping blank and undecodable
lines. -/
theorem c8_cache_hit_reads_log (parseLine : String → Option Trade)
    (lines : List String)
    (oracle : Nat → Except String (Option (List Trade))) :
    fetchAllTrades parseLine (some lines) oracle =
      .ok ⟨readTradesLog parseLine lines, 0, [], []⟩ ∧
    readTradesLog parseLine lines =
      lines.filterMap (fun l =>
        if (l.trim).isEmpty then none else parseLine l.trim) := by
  constructor
  · rfl
  · show (lines.foldl _ []) = _
    have key : ∀ (ls : List String) (acc : List Trade),
        ls.foldl (fun trades rawLine =>
          let line := rawLine.trim
          if line.isEmpty then trades
          else match parseLine line with
            | some t => trades ++ [t]
            | none => trades) acc =
        acc ++ ls.filterMap (fun l =>
          if (l.trim).isEmpty then none else parseLine l.trim) := by
      intro ls
      induction ls with
      | nil => intro acc; simp
      | cons l rest ih =>
        intro acc
        rw [List.foldl_cons, List.filterMap_cons]
        cases hemp : (l.trim).isEmpty with
        | true =>
          simp [hemp, ih]
        | false =>
          cases hp : parseLine l.trim with
          | some t => simp [hemp, hp, ih]
          | none => simp [hemp, hp, ih]
    exact key lines []

set_option maxRecDepth 100000 in
/-- C10: a cache hit always reports truncated=0, whatever the log lines
contain - the truncation state of the run that wrote the log is not
recorded and is lost; the same upstream that yields truncated=1 on a
fresh fetch yields 0 when its log is replayed. -/
theorem c10_cache_hit_flag_always_zero :
    (∀ (parseLine : String → Option Trade) (lines : List String)
       (oracle : Nat → Except String (Option (List Trade))),
       (fetchAllTrades parseLine (some lines) oracle).map (fun r => r.truncated) =
         .ok 0) ∧
    (fetchAllTrades (fun _ => none) none
        (pageOracle (List.replicate 3500 dummyTrade))).map
      (fun r => r.truncated) = .ok 1 ∧
    (∀ lines : List String,
      (fetchAllTrades (fun _ => none) (some lines)
          (pageOracle (List.replicate 3500 dummyTrade))).map
        (fun r => r.truncated) = .ok 0) := by
  exact ⟨fun _ _ _ => rfl, by rfl, fun _ => rfl⟩

/-- C1: the truncation propagation rule is applied on the fresh-fetch path
but not on the aggregation-cache-hit path: replaying the exact cached
aggregate of a truncated run (one trade on day 100, truncated=1) as the
first market of a run emits the cached volume with flag 0 for day 100,
where the fresh path emits volume 0, count 0, flag 1. -/
theorem c1_cache_hit_skips_propagation :
    processMarket none ([tradeD100], 1) none [100] =
      [⟨100, 0, 0, 1⟩] ∧
    aggregateTrades [tradeD100] = ([(100, 5)], [(100, 1)]) ∧
    processMarket (some ([(100, 5)], [(100, 1)], 1)) ([], 0) none [100] =
      [⟨100, 5, 1, 0⟩] := by
  refine ⟨by rfl, ?_, by rfl⟩
  rw [show aggregateTrades [tradeD100] =
    ([(100, (1 / 2 : ℚ) * 10)], [(100, 1)]) from rfl]
  norm_num




lemma mergeDaily_map_fst (yesH noH : Nat → Option ℚ) :
    ∀ (ds : List Nat) (accY accN : Option ℚ),
      (mergeDaily yesH noH ds accY accN).map Prod.fst = ds := by
  intro ds
  induction ds with
  | nil => intro accY accN; rfl
  | cons d rest ih =>
    intro accY accN
    rw [mergeDaily, List.map_cons, ih]

lemma mergeDaily_get? (yesH noH : Nat → Option ℚ) :
    ∀ (ds : List Nat) (accY accN : Option ℚ) (i : Nat),
      (mergeDaily yesH noH ds accY accN).get? i =
        (ds.get? i).map (fun d =>
          (d, carryFold yesH accY (ds.take (i + 1)),
            carryFold noH accN (ds.take (i + 1)))) := by
  intro ds
  induction ds with
  | nil => intro accY accN i; rfl
  | cons d rest ih =>
    intro accY accN i
    cases i with
    | zero => rfl
    | succ m =>
      rw [mergeDaily]
      show (mergeDaily yesH noH rest _ _).get? m = _
      rw [ih]
      show _ = (rest.get? m).map _
      cases rest.get? m with
      | none => rfl
      | some d' => rfl

lemma carryFold_range (h : Nat → Option ℚ) (lo : Nat) :
    ∀ k, carryFold h none ((List.range (k + 1)).map (lo + ·)) =
      ffillFrom h lo k := by
  intro k
  induction k with
  | zero =>
    show carryFold h none [lo + 0] = h lo
    show (match h (lo + 0) with | some p => some p | none => none) = h lo
    rw [Nat.add_zero]
    cases h lo <;> rfl
  | succ m ih =>
    rw [List.range_succ, List.map_append]
    show (((List.range (m + 1)).map (lo + ·)) ++ [lo + (m + 1)]).foldl _ none =
      ffillFrom h lo (m + 1)
    rw [List.foldl_append]
    show (match h (lo + (m + 1)) with
      | some p => some p
      | none => carryFold h none ((List.range (m + 1)).map (lo + ·))) = _
    rw [ih]
    show _ = ffillFrom h lo (m + 1)
    rw [ffillFrom]
    rfl



lemma ffillFrom_none_iff (h : Nat → Option ℚ) (lo : Nat) :
    ∀ k, ffillFrom h lo k = none ↔ ∀ j, j ≤ k → h (lo + j) = none := by
  intro k
  induction k with
  | zero =>
    constructor
    · intro hf j hj
      have hj0 : j = 0 := by omega
      subst hj0
      exact hf
    · intro hall
      exact hall 0 (Nat.le_refl 0)
  | succ m ih =>
    cases hm : h (lo + m + 1) with
    | some q =>
      have hf : ffillFrom h lo (m + 1) = some q := by
        rw [ffillFrom, hm]
      rw [hf]
      simp only [reduceCtorEq, false_iff, not_forall]
      refine ⟨m + 1, Nat.le_refl _, ?_⟩
      show ¬h (lo + (m + 1)) = none
      rw [← Nat.add_assoc, hm]
      simp
    | none =>
      have hf : ffillFrom h lo (m + 1) = ffillFrom h lo m := by
        rw [ffillFrom, hm]
      rw [hf, ih]
      constructor
      · intro hall j hj
        rcases Nat.lt_or_ge j (m + 1) with h1 | h1
        · exact hall j (by omega)
        · have hj1 : j = m + 1 := by omega
          subst hj1
          rw [← Nat.add_assoc]
          exact hm
      · intro hall j hj
        exact hall j (by omega)

lemma ffillFrom_some_iff (h : Nat → Option ℚ) (lo : Nat) :
    ∀ k p, ffillFrom h lo k = some p ↔
      ∃ j, j ≤ k ∧ h (lo + j) = some p ∧
        ∀ j', j < j' → j' ≤ k → h (lo + j') = none := by
  intro k
  induction k with
  | zero =>
    intro p
    constructor
    · intro hf
      exact ⟨0, Nat.le_refl 0, hf, fun j' hlt hle => by omega⟩
    · rintro ⟨j, hj, hobs, -⟩
      have hj0 : j = 0 := by omega
      subst hj0
      exact hobs
  | succ m ih =>
    intro p
    cases hm : h (lo + m + 1) with
    | some q =>
      have hf : ffillFrom h lo (m + 1) = some q := by
        rw [ffillFrom, hm]
      rw [hf]
      constructor
      · intro he
        injection he with he
        subst he
        refine ⟨m + 1, Nat.le_refl _, ?_, fun j' hlt hle => by omega⟩
        rw [← Nat.add_assoc]
        exact hm
      · rintro ⟨j, hj, hobs, hafter⟩
        rcases Nat.lt_or_ge j (m + 1) with h1 | h1
        · have hnone := hafter (m + 1) h1 (Nat.le_refl _)
          rw [← Nat.add_assoc, hm] at hnone
          cases hnone
        · have hj1 : j = m + 1 := by omega
          subst hj1
          rw [← Nat.add_assoc, hm] at hobs
          exact hobs
    | none =>
      have hf : ffillFrom h lo (m + 1) = ffillFrom h lo m := by
        rw [ffillFrom, hm]
      rw [hf, ih]
      constructor
      · rintro ⟨j, hj, hobs, hafter⟩
        refine ⟨j, by omega, hobs, fun j' hlt hle => ?_⟩
        rcases Nat.lt_or_ge j' (m + 1) with h1 | h1
        · exact hafter j' hlt (by omega)
        · have hj1 : j' = m + 1 := by omega
          subst hj1
          rw [← Nat.add_assoc]
          exact hm
      · rintro ⟨j, hj, hobs, hafter⟩
        have hjm : j ≤ m := by
          rcases Nat.lt_or_ge j (m + 1) with h1 | h1
          · omega
          · have hj1 : j = m + 1 := by omega
            subst hj1
            rw [← Nat.add_assoc, hm] at hobs
            cases hobs
        exact ⟨j, hjm, hobs, fun j' hlt hle => hafter j' hlt (by omega)⟩

/-- C9: the merged daily output has one row per date of the range; the
row at index i carries, for each token, the value observed at the
greatest date at or before that row's date that has an observation
(nothing before the first observation), where the forward-fill function
is characterised by the greatest-observed-date property; and the
specification's example holds. -/
theorem c9_forward_fill (yesH noH : Nat → Option ℚ) (startTs endTs : Nat) :
    (mergeRows yesH noH startTs endTs).map Prod.fst =
      utcDateRange startTs endTs ∧
    (∀ i, i < (utcDateRange startTs endTs).length →
       (mergeRows yesH noH startTs endTs).get? i =
         some (tsToUtcDate startTs + i,
           ffillFrom yesH (tsToUtcDate startTs) i,
           ffillFrom noH (tsToUtcDate startTs) i)) ∧
    (∀ (h : Nat → Option ℚ) (lo k : Nat),
       (ffillFrom h lo k = none ↔ ∀ j, j ≤ k → h (lo + j) = none) ∧
       (∀ p, ffillFrom h lo k = some p ↔
         ∃ j, j ≤ k ∧ h (lo + j) = some p ∧
           ∀ j', j < j' → j' ≤ k → h (lo + j') = none)) ∧
    mergeRows exYes (fun _ => none) (10 * 86400) (13 * 86400) =
      [(10, some (3 / 10), none), (11, some (3 / 10), none),
       (12, some (6 / 10), none), (13, some (6 / 10), none)] := by
  refine ⟨mergeDaily_map_fst yesH noH _ none none, ?_, ?_, by rfl⟩
  · intro i hi
    rw [utcDateRange, List.length_map, List.length_range] at hi
    rw [mergeRows, mergeDaily_get? yesH noH]
    rw [utcDateRange, List.get?_map, List.get?_range hi]
    rw [← List.map_take, List.take_range, Nat.min_eq_left (by omega)]
    rw [carryFold_range, carryFold_range]
    rfl
  · intro h lo k
    exact ⟨ffillFrom_none_iff h lo k, ffillFrom_some_iff h lo k⟩

/-- Witness for C9: the example range instantiates the per-row clause and
the greatest-date characterisation at day 11 (no observation at 11, the
carried value comes from day 10). -/
theorem c9_forward_fill_witness :
    (mergeRows exYes (fun _ => none) (10 * 86400) (13 * 86400)).get? 1 =
      some (tsToUtcDate (10 * 86400) + 1, ffillFrom exYes (tsToUtcDate (10 * 86400)) 1,
        ffillFrom (fun _ => none) (tsToUtcDate (10 * 86400)) 1) ∧
    (ffillFrom exYes 10 1 = some (3 / 10) ↔
      ∃ j, j ≤ 1 ∧ exYes (10 + j) = some (3 / 10) ∧
        ∀ j', j < j' → j' ≤ 1 → exYes (10 + j') = none) := by
  constructor
  · exact (c9_forward_fill exYes (fun _ => none) (10 * 86400) (13 * 86400)).2.1 1
      (by norm_num [utcDateRange, tsToUtcDate])
  · exact ((c9_forward_fill exYes (fun _ => none) 0 0).2.2.1 exYes 10 1).2 (3 / 10)




/-! Helper lemmas about the adaptive window fetcher. -/

lemma setPrice_mem (k : Nat) (v : ℚ) :
    ∀ (m : List (Nat × ℚ)) (kv : Nat × ℚ), kv ∈ setPrice m k v →
      kv ∈ m ∨ kv.1 = k := by
  intro m
  induction m with
  | nil =>
    intro kv hkv
    rw [setPrice] at hkv
    rcases List.mem_singleton.mp hkv with rfl
    right
    rfl
  | cons hd rest ih =>
    intro kv hkv
    rw [setPrice] at hkv
    by_cases he : hd.1 = k
    · rw [if_pos he] at hkv
      rcases List.mem_cons.mp hkv with rfl | htl
      · right; exact he
      · left; exact List.mem_cons_of_mem hd htl
    · rw [if_neg he] at hkv
      rcases List.mem_cons.mp hkv with rfl | htl
      · left; exact List.mem_cons_self hd rest
      · rcases ih kv htl with hin | hkey
        · left; exact List.mem_cons_of_mem hd hin
        · right; exact hkey

lemma writeHistory_mem :
    ∀ (hist : List (Nat × ℚ)) (out : List (Nat × ℚ)) (kv : Nat × ℚ),
      kv ∈ writeHistory out hist →
      kv ∈ out ∨ ∃ tp ∈ hist, kv.1 = tsToUtcDate tp.1 := by
  intro hist
  induction hist with
  | nil => intro out kv hkv; exact Or.inl hkv
  | cons tp rest ih =>
    intro out kv hkv
    have hstep : writeHistory out (tp :: rest) =
        writeHistory (setPrice out (tsToUtcDate tp.1) tp.2) rest := rfl
    rw [hstep] at hkv
    rcases ih _ kv hkv with hin | ⟨tq, htq, hkey⟩
    · rcases setPrice_mem (tsToUtcDate tp.1) tp.2 out kv hin with hin' | hkey
      · exact Or.inl hin'
      · exact Or.inr ⟨tp, List.mem_cons_self tp rest, hkey⟩
    · exact Or.inr ⟨tq, List.mem_cons_of_mem tp htq, hkey⟩

lemma fetchWindow_not_fuelOut
    (oracle : Nat → Nat → Except String (List (Nat × ℚ))) (endTs cur : Nat) :
    ∀ fuel w out atts atts', w < fuel →
      fetchWindow oracle endTs cur w fuel out atts ≠ .fuelOut atts' := by
  intro fuel
  induction fuel with
  | zero => intro w out atts atts' h; omega
  | succ n ih =>
    intro w out atts atts' hwf
    rw [fetchWindow]
    by_cases hw : 1 ≤ w
    · simp only [hw, if_true]
      cases ho : oracle cur (min endTs (cur + w * 86400)) with
      | ok hist => simp
      | error msg =>
        by_cases htl : tooLong msg
        · simp only [htl, if_true]
          exact ih (w / 2) out (atts ++ [(cur, w)]) atts' (by omega)
        · simp [htl]
    · simp [hw]

lemma fetchWindow_success
    (oracle : Nat → Nat → Except String (List (Nat × ℚ))) (endTs cur : Nat) :
    ∀ fuel w out atts out' cur' atts',
      fetchWindow oracle endTs cur w fuel out atts = .success out' cur' atts' →
      ∃ wa hist, 1 ≤ wa ∧ wa ≤ w ∧
        oracle cur (min endTs (cur + wa * 86400)) = .ok hist ∧
        out' = writeHistory out hist ∧
        cur' = min endTs (cur + wa * 86400) + 1 := by
  intro fuel
  induction fuel with
  | zero =>
    intro w out atts out' cur' atts' h
    rw [fetchWindow] at h
    cases h
  | succ n ih =>
    intro w out atts out' cur' atts' h
    rw [fetchWindow] at h
    by_cases hw : 1 ≤ w
    · simp only [hw, if_true] at h
      cases ho : oracle cur (min endTs (cur + w * 86400)) with
      | ok hist =>
        rw [ho] at h
        injection h with h1 h2 h3
        exact ⟨w, hist, hw, Nat.le_refl w, ho, h1.symm, h2.symm⟩
      | error msg =>
        rw [ho] at h
        by_cases htl : tooLong msg
        · simp only [htl, if_true] at h
          rcases ih (w / 2) out (atts ++ [(cur, w)]) out' cur' atts' h with
            ⟨wa, hist, hwa1, hwa2, hres⟩
          exact ⟨wa, hist, hwa1, Nat.le_trans hwa2 (Nat.div_le_self w 2), hres⟩
        · simp [htl] at h
    · simp [hw] at h

lemma fetchWindow_allReject
    (oracle : Nat → Nat → Except String (List (Nat × ℚ))) (endTs cur : Nat)
    (hrej : ∀ we, ∃ msg, oracle cur we = .error msg ∧ tooLong msg = true) :
    ∀ fuel w out atts, w < fuel →
      ∃ atts', fetchWindow oracle endTs cur w fuel out atts = .giveUp atts' := by
  intro fuel
  induction fuel with
  | zero => intro w out atts h; omega
  | succ n ih =>
    intro w out atts hwf
    rw [fetchWindow]
    by_cases hw : 1 ≤ w
    · simp only [hw, if_true]
      rcases hrej (min endTs (cur + w * 86400)) with ⟨msg, hmsg, htl⟩
      simp only [hmsg, htl, if_true]
      exact ih (w / 2) out (atts ++ [(cur, w)]) (by omega)
    · simp only [hw, if_false]
      exact ⟨atts, rfl⟩



lemma fetchPricesLoop_terminates
    (oracle : Nat → Nat → Except String (List (Nat × ℚ))) (endTs : Nat) :
    ∀ fuel cur out atts, endTs - cur < fuel →
      fetchPricesLoop oracle endTs maxDays30 fuel cur out atts ≠ .fuelOut := by
  intro fuel
  induction fuel with
  | zero => intro cur out atts h; omega
  | succ n ih =>
    intro cur out atts hf
    rw [fetchPricesLoop]
    by_cases hcur : cur < endTs
    · simp only [hcur, if_true]
      cases hfw : fetchWindow oracle endTs cur maxDays30 (maxDays30 + 1) out atts with
      | success out' cur' atts' =>
        rcases fetchWindow_success oracle endTs cur _ _ _ _ _ _ _ hfw with
          ⟨wa, hist, hwa1, hwa2, ho, hout, hcur'⟩
        have h86 : 86400 ≤ wa * 86400 := Nat.le_mul_of_pos_left 86400 hwa1
        exact ih cur' out' atts' (by omega)
      | giveUp atts' => exact ih (cur + 86400) out atts' (by omega)
      | fail msg atts' => simp
      | fuelOut atts' =>
        exact absurd hfw (fetchWindow_not_fuelOut oracle endTs cur
          (maxDays30 + 1) maxDays30 out atts atts' (by omega))
    · simp [hcur]

lemma fetchPricesLoop_new_keys
    (oracle : Nat → Nat → Except String (List (Nat × ℚ))) (endTs : Nat)
    (hwin : InWindow oracle) :
    ∀ fuel cur out atts r,
      fetchPricesLoop oracle endTs maxDays30 fuel cur out atts = .done r →
      ∀ kv ∈ r.out, kv ∈ out ∨ tsToUtcDate cur ≤ kv.1 := by
  intro fuel
  induction fuel with
  | zero => intro cur out atts r h; rw [fetchPricesLoop] at h; cases h
  | succ n ih =>
    intro cur out atts r h
    rw [fetchPricesLoop] at h
    by_cases hcur : cur < endTs
    · simp only [hcur, if_true] at h
      cases hfw : fetchWindow oracle endTs cur maxDays30 (maxDays30 + 1) out atts with
      | success out' cur' atts' =>
        rw [hfw] at h
        intro kv hkv
        rcases fetchWindow_success oracle endTs cur _ _ _ _ _ _ _ hfw with
          ⟨wa, hist, hwa1, hwa2, ho, hout, hcur'⟩
        rcases ih cur' out' atts' r h kv hkv with hin | hge
        · rw [hout] at hin
          rcases writeHistory_mem hist out kv hin with hin' | ⟨tp, htp, hkey⟩
          · exact Or.inl hin'
          · right
            have hle := (hwin cur _ hist ho tp htp).1
            rw [hkey]
            exact Nat.div_le_div_right hle
        · right
          refine le_trans (Nat.div_le_div_right ?_) hge
          omega
      | giveUp atts' =>
        rw [hfw] at h
        intro kv hkv
        rcases ih (cur + 86400) out atts' r h kv hkv with hin | hge
        · exact Or.inl hin
        · exact Or.inr (le_trans (Nat.div_le_div_right (by omega)) hge)
      | fail msg atts' => rw [hfw] at h; cases h
      | fuelOut atts' => rw [hfw] at h; cases h
    · simp only [hcur, if_false] at h
      injection h with h'
      rw [← h']
      intro kv hkv
      exact Or.inl hkv

lemma fetchWindow_chain
    (oracle : Nat → Nat → Except String (List (Nat × ℚ))) (endTs cur : Nat) :
    ∀ fuel w out atts,
      w ≤ maxDays30 → w < fuel →
      List.Chain' (fun a b => nextAtt oracle endTs a b = true) atts →
      (∀ a, atts.getLast? = some a →
        nextAtt oracle endTs a
          (if 1 ≤ w then (cur, w) else (cur + 86400, maxDays30)) = true) →
      (∀ a ∈ atts, 1 ≤ a.2 ∧ a.2 ≤ maxDays30) →
      (∀ out' cur' atts',
        fetchWindow oracle endTs cur w fuel out atts = .success out' cur' atts' →
        List.Chain' (fun a b => nextAtt oracle endTs a b = true) atts' ∧
        (∀ a ∈ atts', 1 ≤ a.2 ∧ a.2 ≤ maxDays30) ∧
        (∀ a, atts'.getLast? = some a →
          nextAtt oracle endTs a (cur', maxDays30) = true)) ∧
      (∀ atts',
        fetchWindow oracle endTs cur w fuel out atts = .giveUp atts' →
        List.Chain' (fun a b => nextAtt oracle endTs a b = true) atts' ∧
        (∀ a ∈ atts', 1 ≤ a.2 ∧ a.2 ≤ maxDays30) ∧
        (∀ a, atts'.getLast? = some a →
          nextAtt oracle endTs a (cur + 86400, maxDays30) = true)) := by
  intro fuel
  induction fuel with
  | zero => intro w out atts hwm hwf; omega
  | succ n ih =>
    intro w out atts hwm hwf hchain hlink hbnd
    by_cases hw : 1 ≤ w
    · -- an attempt (cur, w) is issued
      have hlink' := fun a ha => by
        have := hlink a ha
        rwa [if_pos hw] at this
      have hchain' : List.Chain' (fun a b => nextAtt oracle endTs a b = true)
          (atts ++ [(cur, w)]) := by
        rw [List.chain'_append]
        refine ⟨hchain, List.chain'_singleton _, ?_⟩
        intro x hx y hy
        simp only [List.head?_cons, Option.mem_def, Option.some.injEq] at hy
        rw [← hy]
        exact hlink' x hx
      have hbnd' : ∀ a ∈ atts ++ [(cur, w)], 1 ≤ a.2 ∧ a.2 ≤ maxDays30 := by
        intro a ha
        rcases List.mem_append.mp ha with ha' | ha'
        · exact hbnd a ha'
        · rcases List.mem_singleton.mp ha' with rfl
          exact ⟨hw, hwm⟩
      have hlast : (atts ++ [(cur, w)]).getLast? = some (cur, w) :=
        List.getLast?_concat atts
      cases ho : oracle cur (min endTs (cur + w * 86400)) with
      | ok hist =>
        constructor
        · intro out' cur' atts' hfw
          rw [fetchWindow] at hfw
          simp only [hw, if_true, ho] at hfw
          injection hfw with h1 h2 h3
          subst h2
          subst h3
          refine ⟨hchain', hbnd', ?_⟩
          intro a ha
          rw [hlast] at ha
          injection ha with ha
          rw [← ha]
          simp [nextAtt, ho]
        · intro atts' hfw
          rw [fetchWindow] at hfw
          simp only [hw, if_true, ho] at hfw
          cases hfw
      | error msg =>
        by_cases htl : tooLong msg
        · -- halve and retry the same cursor
          have hstep : fetchWindow oracle endTs cur w (n + 1) out atts =
              fetchWindow oracle endTs cur (w / 2) n out (atts ++ [(cur, w)]) := by
            rw [fetchWindow]
            simp [hw, ho, htl]
          have hlink2 : ∀ a, (atts ++ [(cur, w)]).getLast? = some a →
              nextAtt oracle endTs a
                (if 1 ≤ w / 2 then (cur, w / 2)
                 else (cur + 86400, maxDays30)) = true := by
            intro a ha
            rw [hlast] at ha
            injection ha with ha
            rw [← ha]
            by_cases h2 : 2 ≤ w
            · rw [if_pos (by omega)]
              simp [nextAtt, ho, htl, h2]
            · rw [if_neg (by omega)]
              simp only [nextAtt, ho, htl, if_true]
              rw [if_neg h2]
              simp
          have := ih (w / 2) out (atts ++ [(cur, w)])
            (by omega) (by omega) hchain' hlink2 hbnd'
          rw [hstep]
          exact this
        · -- fatal error: both shapes are impossible
          constructor
          · intro out' cur' atts' hfw
            rw [fetchWindow] at hfw
            simp [hw, ho, htl] at hfw
          · intro atts' hfw
            rw [fetchWindow] at hfw
            simp [hw, ho, htl] at hfw
    · -- window below one day: give up with the trace unchanged
      constructor
      · intro out' cur' atts' hfw
        rw [fetchWindow] at hfw
        simp [hw] at hfw
      · intro atts' hfw
        rw [fetchWindow] at hfw
        simp only [hw, if_false] at hfw
        injection hfw with h1
        subst h1
        refine ⟨hchain, hbnd, ?_⟩
        intro a ha
        have := hlink a ha
        rwa [if_neg hw] at this



lemma fetchPricesLoop_chain
    (oracle : Nat → Nat → Except String (List (Nat × ℚ))) (endTs : Nat) :
    ∀ fuel cur out atts r,
      List.Chain' (fun a b => nextAtt oracle endTs a b = true) atts →
      (∀ a, atts.getLast? = some a →
        nextAtt oracle endTs a (cur, maxDays30) = true) →
      (∀ a ∈ atts, 1 ≤ a.2 ∧ a.2 ≤ maxDays30) →
      fetchPricesLoop oracle endTs maxDays30 fuel cur out atts = .done r →
      List.Chain' (fun a b => nextAtt oracle endTs a b = true) r.atts ∧
      (∀ a ∈ r.atts, 1 ≤ a.2 ∧ a.2 ≤ maxDays30) := by
  intro fuel
  induction fuel with
  | zero => intro cur out atts r _ _ _ h; rw [fetchPricesLoop] at h; cases h
  | succ n ih =>
    intro cur out atts r hchain hlink hbnd h
    rw [fetchPricesLoop] at h
    by_cases hcur : cur < endTs
    · simp only [hcur, if_true] at h
      have hic := fetchWindow_chain oracle endTs cur (maxDays30 + 1) maxDays30
        out atts (Nat.le_refl _) (by omega) hchain
        (fun a ha => by rw [if_pos (by decide)]; exact hlink a ha) hbnd
      cases hfw : fetchWindow oracle endTs cur maxDays30 (maxDays30 + 1) out atts with
      | success out' cur' atts' =>
        rw [hfw] at h
        rcases hic.1 out' cur' atts' hfw with ⟨hc', hb', hl'⟩
        exact ih cur' out' atts' r hc' hl' hb' h
      | giveUp atts' =>
        rw [hfw] at h
        rcases hic.2 atts' hfw with ⟨hc', hb', hl'⟩
        exact ih (cur + 86400) out atts' r hc' hl' hb' h
      | fail msg atts' => rw [hfw] at h; cases h
      | fuelOut atts' => rw [hfw] at h; cases h
    · simp only [hcur, if_false] at h
      injection h with h'
      rw [← h']
      exact ⟨hchain, hbnd⟩

/-- C4: every trace of issued requests of a finished adaptive fetch obeys
the succession rule - after a success the cursor jumps to window end + 1
with the window reset to the configured maximum, after an
interval-too-long rejection the same cursor is retried with the window
halved while that stays at least one day (else the cursor moves one day
with the window reset) - and every issued request has a window between 1
day and the 30-day maximum. -/
theorem c4_window_adaptation
    (oracle : Nat → Nat → Except String (List (Nat × ℚ)))
    (startTs endTs fuel : Nat) (r : PriceFetchResult)
    (h : fetchPricesHistoryDaily oracle startTs endTs fuel = .done r) :
    List.Chain' (fun a b => nextAtt oracle endTs a b = true) r.atts ∧
    (∀ a ∈ r.atts, 1 ≤ a.2 ∧ a.2 ≤ maxDays30) := by
  refine fetchPricesLoop_chain oracle endTs fuel startTs [] [] r
    List.chain'_nil ?_ ?_ h
  · intro a ha
    simp at ha
  · intro a ha
    simp at ha

/-- Witness for C4: the always-rejecting endpoint over two days produces
the halving traces at cursors 0 and 86400. -/
theorem c4_window_adaptation_witness :
    List.Chain' (fun a b => nextAtt orcReject 172800 a b = true)
      [(0, 30), (0, 15), (0, 7), (0, 3), (0, 1),
       (86400, 30), (86400, 15), (86400, 7), (86400, 3), (86400, 1)] ∧
    (1 ≤ (0, 30).2 ∧ (0, 30).2 ≤ maxDays30) := by
  constructor
  · exact (c4_window_adaptation orcReject 0 172800 20
      ⟨[], [(0, 30), (0, 15), (0, 7), (0, 3), (0, 1),
        (86400, 30), (86400, 15), (86400, 7), (86400, 3), (86400, 1)]⟩
      (by rfl)).1
  · exact (c4_window_adaptation orcReject 0 172800 20
      ⟨[], [(0, 30), (0, 15), (0, 7), (0, 3), (0, 1),
        (86400, 30), (86400, 15), (86400, 7), (86400, 3), (86400, 1)]⟩
      (by rfl)).2 (0, 30) (by decide)

/-- C5: the adaptive fetch terminates - with fuel beyond the span length
the loop never runs out; a successful window strictly advances the cursor
to window end + 1; when every window at a cursor is rejected the loop
advances the cursor by exactly one day with the output unchanged; the
loop ends as soon as the cursor reaches the end timestamp; and for an
endpoint answering inside the requested windows, the day skipped by the
safety valve at a day-aligned cursor is absent from the final map. -/
theorem c5_fetch_terminates :
    (∀ (oracle : Nat → Nat → Except String (List (Nat × ℚ)))
       (startTs endTs fuel : Nat), endTs - startTs < fuel →
       fetchPricesHistoryDaily oracle startTs endTs fuel ≠ .fuelOut) ∧
    (∀ (oracle : Nat → Nat → Except String (List (Nat × ℚ)))
       (endTs cur w fuel : Nat) (out : List (Nat × ℚ)) (atts : List (Nat × Nat))
       (out' : List (Nat × ℚ)) (cur' : Nat) (atts' : List (Nat × Nat)),
       cur < endTs →
       fetchWindow oracle endTs cur w fuel out atts = .success out' cur' atts' →
       cur < cur' ∧ ∃ wa, 1 ≤ wa ∧ wa ≤ w ∧
         cur' = min endTs (cur + wa * 86400) + 1) ∧
    (∀ (oracle : Nat → Nat → Except String (List (Nat × ℚ)))
       (endTs maxDays fuel cur : Nat) (out : List (Nat × ℚ))
       (atts atts' : List (Nat × Nat)),
       cur < endTs →
       fetchWindow oracle endTs cur maxDays (maxDays + 1) out atts = .giveUp atts' →
       fetchPricesLoop oracle endTs maxDays (fuel + 1) cur out atts =
         fetchPricesLoop oracle endTs maxDays fuel (cur + 86400) out atts') ∧
    (∀ (oracle : Nat → Nat → Except String (List (Nat × ℚ)))
       (endTs maxDays fuel cur : Nat) (out : List (Nat × ℚ))
       (atts : List (Nat × Nat)), ¬cur < endTs →
       fetchPricesLoop oracle endTs maxDays (fuel + 1) cur out atts =
         .done ⟨out, atts⟩) ∧
    (∀ (oracle : Nat → Nat → Except String (List (Nat × ℚ)))
       (endTs fuel c : Nat) (out : List (Nat × ℚ)) (atts : List (Nat × Nat))
       (r : PriceFetchResult),
       InWindow oracle → (∀ kv ∈ out, kv.1 * 86400 < c) → c % 86400 = 0 →
       c < endTs →
       (∀ we, ∃ msg, oracle c we = .error msg ∧ tooLong msg = true) →
       fetchPricesLoop oracle endTs maxDays30 fuel c out atts = .done r →
       ∀ p, (tsToUtcDate c, p) ∉ r.out) := by
  refine ⟨?_, ?_, ?_, ?_, ?_⟩
  · intro oracle startTs endTs fuel hf
    exact fetchPricesLoop_terminates oracle endTs fuel startTs [] [] hf
  · intro oracle endTs cur w fuel out atts out' cur' atts' hcur hfw
    rcases fetchWindow_success oracle endTs cur fuel w out atts out' cur' atts'
      hfw with ⟨wa, hist, hwa1, hwa2, ho, hout, hcur'⟩
    have h86 : 86400 ≤ wa * 86400 := Nat.le_mul_of_pos_left 86400 hwa1
    exact ⟨by omega, wa, hwa1, hwa2, hcur'⟩
  · intro oracle endTs maxDays fuel cur out atts atts' hcur hfw
    rw [fetchPricesLoop]
    simp [hcur, hfw]
  · intro oracle endTs maxDays fuel cur out atts hcur
    rw [fetchPricesLoop]
    simp [hcur]
  · intro oracle endTs fuel c out atts r hwin hbound hmod hcur hrej h
    cases fuel with
    | zero => rw [fetchPricesLoop] at h; cases h
    | succ n =>
      rw [fetchPricesLoop] at h
      simp only [hcur, if_true] at h
      rcases fetchWindow_allReject oracle endTs c hrej (maxDays30 + 1) maxDays30
        out atts (by omega) with ⟨atts', hgu⟩
      rw [hgu] at h
      intro p hp
      rcases fetchPricesLoop_new_keys oracle endTs hwin n (c + 86400) out atts'
        r h _ hp with hin | hge
      · have := hbound _ hin
        simp only [tsToUtcDate] at this
        omega
      · simp only [tsToUtcDate] at hge
        omega

/-- Witness for C5: an endpoint rejecting every window at cursor 0 and
answering in-window elsewhere, over the two days [0, 172800): the fetch
terminates, and day 0 is absent from the final map while day 1 is
present. -/
theorem c5_fetch_terminates_witness :
    fetchPricesHistoryDaily orcMix 0 172800 172801 ≠ .fuelOut ∧
    ((tsToUtcDate 0, (1 : ℚ) / 2) ∉
      (⟨[(1, (1 : ℚ) / 2)], [(0, 30), (0, 15), (0, 7), (0, 3), (0, 1),
        (86400, 30)]⟩ : PriceFetchResult).out) := by
  constructor
  · exact c5_fetch_terminates.1 orcMix 0 172800 172801 (by norm_num)
  · refine c5_fetch_terminates.2.2.2.2 orcMix 172800 10 0 [] []
      ⟨[(1, (1 : ℚ) / 2)], [(0, 30), (0, 15), (0, 7), (0, 3), (0, 1),
        (86400, 30)]⟩ ?_ ?_ (by norm_num) (by norm_num) ?_ (by rfl) ((1 : ℚ) / 2)
    · intro c we hist hok tp htp
      rw [orcMix] at hok
      split_ifs at hok with h1 h2
      · injection hok with hh
        rw [← hh] at htp
        have h3 : tp = (c, 1 / 2) := List.mem_singleton.mp htp
        rw [h3]
        exact ⟨Nat.le_refl c, h2⟩
      · injection hok with hh
        rw [← hh] at htp
        cases htp
    · intro kv hkv
      cases hkv
    · intro we
      refine ⟨"interval is too long", ?_, by decide⟩
      rw [orcMix]
      simp


end Polymarket
